import Mathlib

/-!
Verification development for the thunder indexed-series engine.

The sources at hand are `thunder/factorization/pca.py` and the test suite
`test/test_series.py`.  The Series / RowMatrix / SVD implementations
(`thunder/rdds/series.py`, `thunder/util/matrices.py`,
`thunder/factorization/svd.py`) are part of the repository but are not among
the given sources, so those operations are modelled from the specification
(each such definition carries a doc comment starting `Modelled from the
spec:`).  `PCA.fit` itself is translated from the source file.

The distributed collection is modelled as an ordered list of records; the
spec requires all results to be invariant to partitioning, so this loses no
generality for the properties below.  Machine floating point is modelled by
exact rationals, and square roots (standard deviations) by real numbers.
-/

namespace Thunder

/-- A record key: an ordered tuple of coordinates; a single linear position
is a one-element tuple. -/
abbrev Key := List Nat

/-- Modelled from the spec: the Series data model of `thunder/rdds/series.py`
(not among the given sources) — a collection of (key, vector) records plus a
shared index with one label per vector position. -/
structure Series (ι : Type) (α : Type) where
  index : List ι
  records : List (Key × List α)
deriving DecidableEq

/-- Modelled from the spec: the error taxonomy of §7. -/
inductive SeriesError
  | emptySelection
  | labelNotFound
  | unknownStatistic
  | unsupportedMethod
deriving DecidableEq

/-- Modelled from the spec: `between(lower, upper)` retains index positions
whose label falls in the inclusive range, slices every record vector to the
matching positions in index order, and fails with `EmptySelectionError` when
no position matches. -/
def Series.between {α : Type} (s : Series ℚ α) (lo hi : ℚ) :
    Except SeriesError (Series ℚ α) :=
  let keep := s.index.filter (fun l => decide (lo ≤ l ∧ l ≤ hi))
  if keep = [] then .error .emptySelection
  else .ok
    { index := keep
      records := s.records.map (fun r =>
        (r.1, ((s.index.zip r.2).filter
                 (fun q => decide (lo ≤ q.1 ∧ q.1 ≤ hi))).map (fun q => q.2))) }

/-- Modelled from the spec: for one requested label, the elements of a record
vector at the index positions whose label is exactly equal to it, in index
order. -/
def selectVals {ι α : Type} [DecidableEq ι] (index : List ι) (l : ι)
    (v : List α) : List α :=
  ((index.zip v).filter (fun q => decide (q.1 = l))).map (fun q => q.2)

/-- Modelled from the spec: `select(labels)` accepts a single label or an
ordered sequence of labels; a single-label request is not wrapped in an extra
list level, a sequence request concatenates the matches in request order;
absent labels fail with `LabelNotFoundError`. -/
def Series.select {ι α : Type} [DecidableEq ι] (s : Series ι α)
    (req : ι ⊕ List ι) : Except SeriesError (Series ι α) :=
  match req with
  | .inl l =>
      if l ∈ s.index then
        .ok { index := [l]
              records := s.records.map (fun r => (r.1, selectVals s.index l r.2)) }
      else .error .labelNotFound
  | .inr ls =>
      if ls.all (fun l => decide (l ∈ s.index)) then
        .ok { index := ls
              records := s.records.map (fun r =>
                (r.1, (ls.map (fun l => selectVals s.index l r.2)).flatten)) }
      else .error .labelNotFound

/-- Modelled from the spec: arithmetic mean of a vector. -/
def listMean (v : List ℚ) : ℚ := v.sum / (v.length : ℚ)

/-- Modelled from the spec: population variance, denominator = vector length
(ddof 0). -/
def popVar (v : List ℚ) : ℚ :=
  ((v.map (fun x => (x - listMean v) ^ 2)).sum) / (v.length : ℚ)

/-- Modelled from the spec: sample variance, denominator = count − 1
(ddof 1), used for across-record statistics. -/
def sampleVar (v : List ℚ) : ℚ :=
  ((v.map (fun x => (x - listMean v) ^ 2)).sum) / ((v.length : ℚ) - 1)

/-- Modelled from the spec: population standard deviation. -/
noncomputable def popStdev (v : List ℚ) : ℝ := Real.sqrt ((popVar v : ℚ) : ℝ)

/-- Modelled from the spec: sample standard deviation (ddof 1). -/
noncomputable def sampleStdev (v : List ℚ) : ℝ :=
  Real.sqrt ((sampleVar v : ℚ) : ℝ)

/-- Modelled from the spec: `seriesMean`, one length-1 vector per record. -/
def Series.seriesMean {ι : Type} (s : Series ι ℚ) : Series String ℚ :=
  { index := ["mean"]
    records := s.records.map (fun r => (r.1, [listMean r.2])) }

/-- Modelled from the spec: `seriesSum`, one length-1 vector per record. -/
def Series.seriesSum {ι : Type} (s : Series ι ℚ) : Series String ℚ :=
  { index := ["sum"]
    records := s.records.map (fun r => (r.1, [r.2.sum])) }

/-- Modelled from the spec: `seriesStdev`, the population standard deviation
of each record, one length-1 vector per record. -/
noncomputable def Series.seriesStdev {ι : Type} (s : Series ι ℚ) :
    Series String ℝ :=
  { index := ["stdev"]
    records := s.records.map (fun r => (r.1, [popStdev r.2])) }

/-- Modelled from the spec: the supported statistic names. -/
def statNames : List String := ["mean", "sum", "stdev", "variance", "count"]

/-- Modelled from the spec: the value of one named statistic of a vector,
population convention throughout. -/
noncomputable def statVal (name : String) (v : List ℚ) : ℝ :=
  if name = "mean" then ((listMean v : ℚ) : ℝ)
  else if name = "sum" then ((v.sum : ℚ) : ℝ)
  else if name = "stdev" then popStdev v
  else if name = "variance" then ((popVar v : ℚ) : ℝ)
  else (v.length : ℝ)

/-- Modelled from the spec: `seriesStat(name)`, dispatch by statistic name,
unknown names fail with `UnknownStatisticError`. -/
noncomputable def Series.seriesStat {ι : Type} (s : Series ι ℚ)
    (name : String) : Except SeriesError (Series String ℝ) :=
  if name ∈ statNames then
    .ok { index := [name]
          records := s.records.map (fun r => (r.1, [statVal name r.2])) }
  else .error .unknownStatistic

/-- Modelled from the spec: `seriesStats()`, one vector per record whose
index enumerates all supported statistic names. -/
noncomputable def Series.seriesStats {ι : Type} (s : Series ι ℚ) :
    Series String ℝ :=
  { index := statNames
    records := s.records.map (fun r =>
      (r.1, statNames.map (fun n => statVal n r.2))) }

/-- Modelled from the spec: the values at one index position across all
records of a collection. -/
def colVals (recs : List (Key × List ℚ)) (j : Nat) : List ℚ :=
  recs.filterMap (fun r => r.2[j]?)

/-- Modelled from the spec: `center(axis)` — axis 0 subtracts each record's
own mean, axis 1 subtracts the per-position mean across records. -/
def Series.center {ι : Type} (s : Series ι ℚ) (axis : Nat) : Series ι ℚ :=
  if axis = 0 then
    { s with records := s.records.map (fun r =>
        (r.1, r.2.map (fun x => x - listMean r.2))) }
  else
    { s with records := s.records.map (fun r =>
        (r.1, (List.range r.2.length).map (fun j =>
          r.2.getD j 0 - listMean (colVals s.records j)))) }

/-- Modelled from the spec: `standardize(axis)` — divide the original,
uncentered value by the relevant standard deviation: the record's own
population standard deviation for axis 0, the per-position sample standard
deviation (ddof 1) across records for axis 1. -/
noncomputable def Series.standardize {ι : Type} (s : Series ι ℚ)
    (axis : Nat) : Series ι ℝ :=
  if axis = 0 then
    { index := s.index
      records := s.records.map (fun r =>
        (r.1, r.2.map (fun x => ((x : ℚ) : ℝ) / popStdev r.2))) }
  else
    { index := s.index
      records := s.records.map (fun r =>
        (r.1, (List.range r.2.length).map (fun j =>
          ((r.2.getD j 0 : ℚ) : ℝ) / sampleStdev (colVals s.records j)))) }

/-- Modelled from the spec: `zscore(axis)` — subtract the relevant mean,
then divide by the relevant standard deviation. -/
noncomputable def Series.zscore {ι : Type} (s : Series ι ℚ) (axis : Nat) :
    Series ι ℝ :=
  if axis = 0 then
    { index := s.index
      records := s.records.map (fun r =>
        (r.1, r.2.map (fun x => ((x - listMean r.2 : ℚ) : ℝ) / popStdev r.2))) }
  else
    { index := s.index
      records := s.records.map (fun r =>
        (r.1, (List.range r.2.length).map (fun j =>
          ((r.2.getD j 0 - listMean (colVals s.records j) : ℚ) : ℝ) /
            sampleStdev (colVals s.records j)))) }

/-- Insert a value into an ascending list, keeping it ascending. -/
def insertSorted (x : ℚ) : List ℚ → List ℚ
  | [] => [x]
  | y :: ys => if x ≤ y then x :: y :: ys else y :: insertSorted x ys

/-- Sort a vector ascending (insertion sort). -/
def sortQ : List ℚ → List ℚ
  | [] => []
  | x :: xs => insertSorted x (sortQ xs)

/-- Modelled from the spec: the pth percentile of a vector under the
standard linear-interpolation rule — sort, take the fractional rank
(len − 1)·p/100, and interpolate between the two bracketing order
statistics. -/
def percentileQ (p : ℚ) (v : List ℚ) : ℚ :=
  let sorted := sortQ v
  let rank : ℚ := (((sorted.length : ℚ) - 1) * p) / 100
  let f : Nat := (⌊rank⌋).toNat
  let lowv := sorted.getD f 0
  let highv := sorted.getD (f + 1) lowv
  lowv + (rank - (f : ℚ)) * (highv - lowv)

/-- Modelled from the spec: `normalize(method, percentile, offset)` — for
each record independently, baseline = the given percentile of the record's
values; output (value − baseline) / (baseline + offset) element-wise, the
offset added to the denominator; methods other than "percentile" fail with
`UnsupportedMethodError`. -/
def Series.normalize {ι : Type} (s : Series ι ℚ) (method : String)
    (p : ℚ) (offset : ℚ) : Except SeriesError (Series ι ℚ) :=
  if method = "percentile" then
    .ok { s with records := s.records.map (fun r =>
      let b := percentileQ p r.2
      (r.1, r.2.map (fun x => (x - b) / (b + offset)))) }
  else .error .unsupportedMethod

/-- Modelled from the spec: ordinary-least-squares slope of vector values
against positions 0..n−1. -/
def olsSlope (v : List ℚ) : ℚ :=
  let n : ℚ := (v.length : ℚ)
  let xs : List ℚ := (List.range v.length).map (fun i : ℕ => (i : ℚ))
  let sx := xs.sum
  let sxx := (xs.map (fun x => x ^ 2)).sum
  let sy := v.sum
  let sxy := ((xs.zip v).map (fun q => q.1 * q.2)).sum
  (n * sxy - sx * sy) / (n * sxx - sx ^ 2)

/-- Modelled from the spec: ordinary-least-squares intercept of vector
values against positions 0..n−1. -/
def olsIntercept (v : List ℚ) : ℚ :=
  let n : ℚ := (v.length : ℚ)
  let sx := (((List.range v.length).map (fun i : ℕ => (i : ℚ)))).sum
  (v.sum - olsSlope v * sx) / n

/-- Modelled from the spec: fit a first-degree polynomial of vector value
against position by ordinary least squares and subtract the fitted line. -/
def detrendLinear (v : List ℚ) : List ℚ :=
  (((List.range v.length).map (fun i : ℕ => (i : ℚ))).zip v).map
    (fun q => q.2 - (olsSlope v * q.1 + olsIntercept v))

/-- Modelled from the spec: `detrend(method)` — only "linear" is supported,
other methods fail with `UnsupportedMethodError`. -/
def Series.detrend {ι : Type} (s : Series ι ℚ) (method : String) :
    Except SeriesError (Series ι ℚ) :=
  if method = "linear" then
    .ok { s with records := s.records.map (fun r => (r.1, detrendLinear r.2)) }
  else .error .unsupportedMethod

/-- Modelled from the spec: the maximal extent along each key dimension
across the whole collection. -/
def keyDims (recs : List (Key × List ℚ)) : List Nat :=
  match recs with
  | [] => []
  | r :: rest => rest.foldl (fun acc q => acc.zipWith max q.1) r.1

/-- Modelled from the spec: the deterministic 1-based linear index of a
coordinate under the fastest-varying-first convention for the given
extents; a single-integer key is its own linear index. -/
def subToInd (d : List Nat) (k : Key) : Nat :=
  if k.length = 1 then k.headI
  else toLinear0 d k + 1
where
  /-- Zero-based mixed-radix value, first coordinate fastest. -/
  toLinear0 : List Nat → List Nat → Nat
    | _, [] => 0
    | [], _ => 0
    | e :: es, c :: cs => (c - 1) + e * toLinear0 es cs

/-- Modelled from the spec: element-wise sum of equal-length vectors. -/
def sumVecs : List (List ℚ) → List ℚ
  | [] => []
  | v :: vs => vs.foldl (fun acc w => acc.zipWith (fun a b => a + b) w) v

/-- Modelled from the spec: element-wise arithmetic mean of a list of
vectors (an empty group is returned as the empty vector; the NaN policy of
§4.5 has no exact-rational counterpart). -/
def meanVecs (vs : List (List ℚ)) : List ℚ :=
  (sumVecs vs).map (fun x => x / (vs.length : ℚ))

/-- Modelled from the spec: `query(inds)` — derive extents from the
observed keys, map every key to its 1-based linear index, and for each
group average element-wise the vectors of all records whose linear index is
a member; returns group identifiers 1..n paired with the averaged
vectors. -/
def Series.query {ι : Type} (s : Series ι ℚ) (groups : List (List Nat)) :
    List Nat × List (List ℚ) :=
  let d := keyDims s.records
  ((List.range groups.length).map (fun g => g + 1),
   groups.map (fun g =>
     meanVecs ((s.records.filter
       (fun r => decide (subToInd d r.1 ∈ g))).map (fun r => r.2))))

/-- Modelled from the spec: a RowMatrix (`thunder/util/matrices.py`, not
among the given sources) views a collection of records as a matrix whose
rows are the record vectors. -/
structure RowMatrix where
  rows : List (Key × List ℚ)
deriving DecidableEq

/-- Number of rows (records). -/
def RowMatrix.nrows (m : RowMatrix) : Nat := m.rows.length

/-- Number of columns (record vector length). -/
def RowMatrix.ncols (m : RowMatrix) : Nat :=
  ((m.rows.head?.map (fun r => r.2.length))).getD 0

/-- Modelled from the spec: the mean of one matrix column. -/
def colMean (m : RowMatrix) (j : Nat) : ℚ := listMean (colVals m.rows j)

/-- Modelled from the spec: `RowMatrix.center(axis)` — the in-place
centering variant used inside the factorization pipeline, which returns the
already-mutated matrix.  Per §4.6, the pipeline's `center(0)` call centers
the matrix columns (mean-centering by feature, the §4.3 axis-1 statistic);
any other axis subtracts each row's own mean. -/
def RowMatrix.center (m : RowMatrix) (axis : Nat) : RowMatrix :=
  if axis = 0 then
    ⟨m.rows.map (fun r =>
      (r.1, (List.range r.2.length).map (fun j => r.2.getD j 0 - colMean m j)))⟩
  else
    ⟨m.rows.map (fun r => (r.1, r.2.map (fun x => x - listMean r.2)))⟩

/-- Result triple of an SVD run: left singular vectors (one per record),
singular values, right singular vectors. -/
structure SVDResult where
  u : List (Key × List ℚ)
  s : List ℚ
  v : List (List ℚ)
deriving DecidableEq

/-- An SVD algorithm: given k, the method name, and a matrix, produce the
result triple.  The SVD implementation (`thunder/factorization/svd.py`) is
not among the given sources, so `PCA.fit` is parameterized over it. -/
abbrev SVDMethod := Nat → String → RowMatrix → SVDResult

/-- Modelled from the spec: the shape contract of `SVD(k, method).calc` —
`u` has one k-length vector per row of the input matrix, `s` has length k,
`v` is k vectors of length ncols. -/
def SVDSpecOK (f : SVDMethod) : Prop :=
  ∀ (k : Nat) (method : String) (m : RowMatrix),
    (f k method m).u.length = m.nrows ∧
    (∀ r ∈ (f k method m).u, r.2.length = k) ∧
    (f k method m).s.length = k ∧
    (f k method m).v.length = k ∧
    (∀ c ∈ (f k method m).v, c.length = m.ncols)

/-- The PCA estimator parameters, from `PCA.__init__` in
`src/python/thunder/factorization/pca.py`. -/
structure PCAModel where
  k : Nat
  svdmethod : String

/-- The three artifacts `fit` stores on the instance. -/
structure PCAFit where
  scores : List (Key × List ℚ)
  latent : List ℚ
  comps : List (List ℚ)
deriving DecidableEq

/-- The input to `fit`: either a raw collection of records or an existing
RowMatrix. -/
def inputMatrix (input : List (Key × List ℚ) ⊕ RowMatrix) : RowMatrix :=
  match input with
  | .inl rdd => ⟨rdd⟩
  | .inr m => m

/-- Translated from `PCA.fit` in `src/python/thunder/factorization/pca.py`:
wrap input that is not already a RowMatrix, call `center(0)` (whose return
value the source discards — centering acts in place on the matrix object),
run the SVD with the instance's k and method on that same object, and store
`scores = u`, `latent = s`, `comps = v`.  The in-place mutation is modelled
by explicit state passing: the second component is the state of the `data`
matrix object when `fit` returns, which for RowMatrix input is the state of
the caller's own matrix. -/
def PCA.fit (p : PCAModel) (svdCalc : SVDMethod)
    (input : List (Key × List ℚ) ⊕ RowMatrix) : PCAFit × RowMatrix :=
  let data := inputMatrix input
  let data2 := data.center 0
  let svd := svdCalc p.k p.svdmethod data2
  ({ scores := svd.u, latent := svd.s, comps := svd.v }, data2)

/-- The single-record collection [1,2,3,4,5] used throughout the test
suite, with the default identity index. -/
def testSeries5 : Series ℚ ℚ := ⟨[0, 1, 2, 3, 4], [([0], [1, 2, 3, 4, 5])]⟩

/-- The two-record collection [1,2], [3,4] of the axis-1 tests. -/
def testSeriesPair : Series ℚ ℚ := ⟨[0, 1], [([0], [1, 2]), ([0], [3, 4])]⟩

/-- The two-record collection of the between test. -/
def testSeriesBetween : Series ℚ ℚ :=
  ⟨[0, 1, 2, 3], [([0], [4, 5, 6, 7]), ([1], [8, 9, 10, 11])]⟩

/-- The string-indexed collection of the select test. -/
def testSeriesLabels : Series String ℚ :=
  ⟨["label1", "label2", "label3", "label4"],
   [([0], [4, 5, 6, 7]), ([1], [8, 9, 10, 11])]⟩

/-- The coordinate-keyed collection of the subscript query test. -/
def testSeriesSubs : Series ℚ ℚ :=
  ⟨[0, 1, 2], [([1, 1], [1, 2, 3]), ([2, 1], [2, 2, 4]), ([1, 2], [4, 2, 1])]⟩

/-- The linearly keyed collection of the linear query test. -/
def testSeriesLin : Series ℚ ℚ :=
  ⟨[0, 1, 2], [([1], [1, 2, 3]), ([2], [2, 2, 4]), ([3], [4, 2, 1])]⟩

/-- A small two-by-two matrix whose columns are not yet centered. -/
def demoMatrix : RowMatrix := ⟨[([0], [1, 2]), ([1], [3, 4])]⟩

/-- C2: query maps coordinate keys to 1-based linear indices
(fastest-varying-first over the observed extents) and averages each group
element-wise; on the records keyed (1,1), (2,1), (1,2) with groups
[[1,2],[3]] the group averages are [1.5, 2, 3.5] and [4, 2, 1], and
already-linear one-integer keys are their own linear index, giving the same
result for keys (1,), (2,), (3,). -/
theorem query_subscripts_and_linear :
    (testSeriesSubs.query [[1, 2], [3]] =
      ([1, 2], [[3/2, 2, 7/2], [4, 2, 1]])) ∧
    (testSeriesLin.query [[1, 2], [3]] =
      ([1, 2], [[3/2, 2, 7/2], [4, 2, 1]])) ∧
    (∀ (d : List Nat) (k : Nat), subToInd d [k] = k) := by
  refine ⟨?_, ?_, ?_⟩
  · norm_num [Series.query, keyDims, subToInd, subToInd.toLinear0, meanVecs,
      sumVecs, testSeriesSubs, List.filter, List.zipWith, List.foldl,
      List.range_succ]
  · norm_num [Series.query, keyDims, subToInd, subToInd.toLinear0, meanVecs,
      sumVecs, testSeriesLin, List.filter, List.zipWith, List.foldl,
      List.range_succ]
  · intro d k
    simp [subToInd]

/-- Helper for C5: the 20th percentile of [1,2,3,4,5] is 1.8 under the
linear-interpolation rule. -/
theorem percentileQ_test5 : percentileQ 20 [1, 2, 3, 4, 5] = 9/5 := by
  have hsort : sortQ [1, 2, 3, 4, 5] = [1, 2, 3, 4, 5] := by
    norm_num [sortQ, insertSorted]
  have hfl : (⌊(((([1, 2, 3, 4, 5] : List ℚ).length : ℚ) - 1) * 20)/100⌋ : ℤ)
      = 0 := by norm_num
  simp only [percentileQ, hsort, hfl]
  norm_num

/-- C5: normalize("percentile", 20, 0.1) takes each record's 20th
percentile (linear interpolation) as baseline and outputs
(value − baseline)/(baseline + offset); on [1,2,3,4,5] the baseline is 1.8
and the output is [−8/19, 2/19, 12/19, 22/19, 32/19], matching the quoted
decimals to within 10⁻⁴. -/
theorem normalize_percentile_example :
    (testSeries5.normalize "percentile" 20 (1/10) =
      .ok ⟨[0, 1, 2, 3, 4],
           [([0], [-8/19, 2/19, 12/19, 22/19, 32/19])]⟩) ∧
    percentileQ 20 [1, 2, 3, 4, 5] = 9/5 ∧
    |(-8/19 : ℚ) - (-0.42105)| < 1/10^4 ∧
    |(2/19 : ℚ) - 0.10526| < 1/10^4 ∧
    |(12/19 : ℚ) - 0.63157| < 1/10^4 ∧
    |(22/19 : ℚ) - 1.15789| < 1/10^4 ∧
    |(32/19 : ℚ) - 1.68421| < 1/10^4 := by
  refine ⟨?_, percentileQ_test5, ?_, ?_, ?_, ?_, ?_⟩
  · norm_num [Series.normalize, testSeries5, percentileQ_test5]
  all_goals rw [abs_lt]; constructor <;> norm_num

/-- C8: a single-label select and a one-element-sequence select produce the
same result whenever the label occurs in the index. -/
theorem select_single_eq_singleton_list {ι α : Type} [DecidableEq ι]
    (s : Series ι α) (l : ι) (h : l ∈ s.index) :
    s.select (.inl l) = s.select (.inr [l]) := by
  simp [Series.select, h]

/-- Witness for C8: the single-label and singleton-sequence selects agree
on the select test's collection. -/
theorem select_single_eq_singleton_list_witness :
    testSeriesLabels.select (.inl "label1") =
      testSeriesLabels.select (.inr ["label1"]) :=
  select_single_eq_singleton_list testSeriesLabels "label1" (by decide)

/-- Helper for C7: slicing a vector to the positions of matching labels
produces one element per matching label when the vector and index have the
same length. -/
theorem length_filter_zip {ι α : Type} (p : ι → Bool) :
    ∀ (xs : List ι) (ys : List α), ys.length = xs.length →
      (((xs.zip ys).filter (fun q => p q.1)).map (fun q => q.2)).length =
        xs.countP p := by
  intro xs
  induction xs with
  | nil => intro ys h; simp
  | cons x xs ih =>
      intro ys h
      match ys with
      | [] => simp at h
      | y :: ys =>
          simp only [List.length_cons, Nat.succ.injEq] at h
          by_cases hp : p x
          · simp [List.countP_cons, hp, ih ys h]
          · simp [List.countP_cons, hp, ih ys h]

/-- C7: when between(lo, hi) succeeds, the new index has exactly as many
entries as there are index labels in [lo, hi], and every record's vector is
sliced to that same length (given the data-model invariant that vectors and
index agree in length). -/
theorem between_counts {α : Type} (s : Series ℚ α) (lo hi : ℚ)
    (s2 : Series ℚ α)
    (hwf : ∀ r ∈ s.records, r.2.length = s.index.length)
    (hok : s.between lo hi = .ok s2) :
    s2.index.length = s.index.countP (fun l => decide (lo ≤ l ∧ l ≤ hi)) ∧
    ∀ r ∈ s2.records,
      r.2.length = s.index.countP (fun l => decide (lo ≤ l ∧ l ≤ hi)) := by
  unfold Series.between at hok
  by_cases hempty :
      s.index.filter (fun l => decide (lo ≤ l ∧ l ≤ hi)) = []
  · rw [if_pos hempty] at hok
    exact absurd hok (by simp)
  · rw [if_neg hempty] at hok
    have hs2 := Except.ok.inj hok
    subst hs2
    constructor
    · simp [List.countP_eq_length_filter]
    · intro r hr
      simp only [List.mem_map] at hr
      obtain ⟨q, hq, rfl⟩ := hr
      exact length_filter_zip (fun l => decide (lo ≤ l ∧ l ≤ hi))
        s.index q.2 (hwf q hq)

/-- Witness for C7: on the between test's collection, between(0, 1) keeps
two index entries and slices the first record's vector to length two. -/
theorem between_counts_witness :
    ([(0 : ℚ), 1] : List ℚ).length =
      testSeriesBetween.index.countP (fun l => decide (0 ≤ l ∧ l ≤ 1)) ∧
    ([(4 : ℚ), 5] : List ℚ).length =
      testSeriesBetween.index.countP (fun l => decide (0 ≤ l ∧ l ≤ 1)) :=
  ⟨(between_counts testSeriesBetween 0 1
      ⟨[0, 1], [([0], [4, 5]), ([1], [8, 9])]⟩ (by decide)
      (by norm_num [Series.between, testSeriesBetween, List.filter]
          intro h
          simp at h)).1,
   (between_counts testSeriesBetween 0 1
      ⟨[0, 1], [([0], [4, 5]), ([1], [8, 9])]⟩ (by decide)
      (by norm_num [Series.between, testSeriesBetween, List.filter]
          intro h
          simp at h)).2
     ([0], [4, 5]) (List.mem_cons_self _ _)⟩

/-- Rational bracketing of the square root of two, used to check the
decimal values quoted by the spec. -/
theorem sqrt_two_bounds :
    (1.41421 : ℝ) < Real.sqrt 2 ∧ Real.sqrt 2 < 1.41422 := by
  constructor
  · exact (Real.lt_sqrt (by norm_num)).mpr (by norm_num)
  · exact (Real.sqrt_lt' (by norm_num)).mpr (by norm_num)

/-- Population variance of the test vector [1,2,3,4,5] is 2 (denominator
5, not 4). -/
theorem popVar_test5 : popVar [1, 2, 3, 4, 5] = 2 := by
  norm_num [popVar, listMean]

/-- Population standard deviation of the test vector [1,2,3,4,5]. -/
theorem popStdev_test5 : popStdev [1, 2, 3, 4, 5] = Real.sqrt 2 := by
  rw [popStdev, popVar_test5]
  norm_num

/-- Sample variance (ddof 1) of the cross-record column [1,3] is 2. -/
theorem sampleVar_column13 : sampleVar [1, 3] = 2 := by
  norm_num [sampleVar, listMean]

/-- Sample variance (ddof 1) of the cross-record column [2,4] is 2. -/
theorem sampleVar_column24 : sampleVar [2, 4] = 2 := by
  norm_num [sampleVar, listMean]

/-- Sample standard deviation of the column [1,3]. -/
theorem sampleStdev_column13 : sampleStdev [1, 3] = Real.sqrt 2 := by
  rw [sampleStdev, sampleVar_column13]
  norm_num

/-- Sample standard deviation of the column [2,4]. -/
theorem sampleStdev_column24 : sampleStdev [2, 4] = Real.sqrt 2 := by
  rw [sampleStdev, sampleVar_column24]
  norm_num

/-- C6: the per-record statistics use the population convention and emit
length-1 vectors: on the single record [1,2,3,4,5], seriesMean is 3,
seriesSum is 15, seriesStdev is the square root of 2 (≈ 1.4142135),
seriesStat("mean") is 3, and from seriesStats, select("mean") gives 3 and
select("count") gives 5. -/
theorem series_stats_population :
    (testSeries5.seriesMean.records = [([0], [3])]) ∧
    (testSeries5.seriesSum.records = [([0], [15])]) ∧
    (testSeries5.seriesStdev.records = [([0], [Real.sqrt 2])]) ∧
    |Real.sqrt 2 - 1.4142135| < 1/10^4 ∧
    (testSeries5.seriesStat "mean" =
      .ok ⟨["mean"], [([0], [(3 : ℝ)])]⟩) ∧
    (testSeries5.seriesStats.select (.inl "mean") =
      .ok ⟨["mean"], [([0], [(3 : ℝ)])]⟩) ∧
    (testSeries5.seriesStats.select (.inl "count") =
      .ok ⟨["count"], [([0], [(5 : ℝ)])]⟩) ∧
    (∀ (t : Series ℚ ℚ),
      (t.seriesMean.records.all (fun r => r.2.length == 1)) = true ∧
      (t.seriesSum.records.all (fun r => r.2.length == 1)) = true ∧
      (t.seriesStdev.records.all (fun r => r.2.length == 1)) = true) := by
  obtain ⟨hlo, hhi⟩ := sqrt_two_bounds
  refine ⟨?_, ?_, ?_, ?_, ?_, ?_, ?_, ?_⟩
  · norm_num [Series.seriesMean, testSeries5, listMean]
  · norm_num [Series.seriesSum, testSeries5]
  · simp [Series.seriesStdev, testSeries5, popStdev_test5]
  · rw [abs_lt]
    constructor <;> nlinarith
  · norm_num [Series.seriesStat, statNames, testSeries5, statVal, listMean]
  · simp +decide only [Series.seriesStats, Series.select, selectVals,
      statNames, testSeries5, statVal, List.filter, List.map, List.zip,
      List.zipWith, List.mem_cons]
    norm_num [listMean]
  · simp +decide only [Series.seriesStats, Series.select, selectVals,
      statNames, testSeries5, statVal, List.filter, List.map, List.zip,
      List.zipWith, List.mem_cons]
    norm_num [listMean]
  · intro t
    refine ⟨?_, ?_, ?_⟩ <;>
    · rw [List.all_eq_true]
      intro r hr
      obtain ⟨q, hq, rfl⟩ := List.mem_map.mp hr
      rfl

/-- C3: standardize divides the original values by the relevant standard
deviation — the record's own population standard deviation for axis 0, the
per-position cross-record sample standard deviation for axis 1; on
[1,2,3,4,5] axis 0 gives k/√2 for k = 1..5, and on the records [1,2] and
[3,4] axis 1 gives [1/√2, 2/√2] for the first record, matching the quoted
decimals to within 10⁻³. -/
theorem standardize_examples :
    ((testSeries5.standardize 0).records =
      [([0], [1 / Real.sqrt 2, 2 / Real.sqrt 2, 3 / Real.sqrt 2,
              4 / Real.sqrt 2, 5 / Real.sqrt 2])]) ∧
    ((testSeriesPair.standardize 1).records =
      [([0], [1 / Real.sqrt 2, 2 / Real.sqrt 2]),
       ([0], [3 / Real.sqrt 2, 4 / Real.sqrt 2])]) ∧
    |1 / Real.sqrt 2 - 0.7071| < 1/10^3 ∧
    |2 / Real.sqrt 2 - 1.4142| < 1/10^3 ∧
    |3 / Real.sqrt 2 - 2.1213| < 1/10^3 ∧
    |4 / Real.sqrt 2 - 2.8284| < 1/10^3 ∧
    |5 / Real.sqrt 2 - 3.5355| < 1/10^3 := by
  obtain ⟨hlo, hhi⟩ := sqrt_two_bounds
  have hpos : (0 : ℝ) < Real.sqrt 2 := by linarith
  have hs : Real.sqrt 2 * Real.sqrt 2 = 2 :=
    Real.mul_self_sqrt (by norm_num)
  have key : ∀ k : ℝ, k / Real.sqrt 2 = k * Real.sqrt 2 / 2 := by
    intro k
    rw [div_eq_div_iff (ne_of_gt hpos) (by norm_num : (2:ℝ) ≠ 0),
      mul_assoc, hs]
  have hst0 : sampleStdev
      (colVals ([([0], [1, 2]), ([0], [3, 4])] : List (Key × List ℚ)) 0) =
      Real.sqrt 2 := by
    have hc : colVals ([([0], [1, 2]), ([0], [3, 4])] :
        List (Key × List ℚ)) 0 = [1, 3] := rfl
    rw [hc]
    exact sampleStdev_column13
  have hst1 : sampleStdev
      (colVals ([([0], [1, 2]), ([0], [3, 4])] : List (Key × List ℚ)) 1) =
      Real.sqrt 2 := by
    have hc : colVals ([([0], [1, 2]), ([0], [3, 4])] :
        List (Key × List ℚ)) 1 = [2, 4] := rfl
    rw [hc]
    exact sampleStdev_column24
  refine ⟨?_, ?_, ?_, ?_, ?_, ?_, ?_⟩
  · norm_num [Series.standardize, testSeries5, popStdev_test5]
  · norm_num [Series.standardize, testSeriesPair, List.range_succ,
      hst0, hst1]
  all_goals rw [key, abs_lt]; constructor <;> nlinarith

/-- Sum of the positions 0..n−1 as rationals. -/
theorem sum_range_cast (n : Nat) :
    (((List.range n).map (fun i : ℕ => (i : ℚ)))).sum = n * (n - 1) / 2 := by
  induction n with
  | zero => simp
  | succ n ih =>
      rw [List.range_succ, List.map_append, List.sum_append, ih]
      push_cast
      simp
      ring

/-- Sum of the squared positions 0..n−1 as rationals. -/
theorem sum_range_sq_cast (n : Nat) :
    (((List.range n).map (fun i : ℕ => ((i : ℚ)) ^ 2))).sum =
      n * (n - 1) * (2 * n - 1) / 6 := by
  induction n with
  | zero => simp
  | succ n ih =>
      rw [List.range_succ, List.map_append, List.sum_append, ih]
      push_cast
      simp
      ring

/-- Sum of an arithmetic progression read off positions 0..n−1. -/
theorem sum_range_affine (c d : ℚ) (n : Nat) :
    (((List.range n).map (fun i : ℕ => c + d * (i : ℚ)))).sum =
      c * n + d * (n * (n - 1) / 2) := by
  induction n with
  | zero => simp
  | succ n ih =>
      rw [List.range_succ, List.map_append, List.sum_append, ih]
      push_cast
      simp
      ring

/-- Sum of position times arithmetic-progression value over 0..n−1. -/
theorem sum_range_affine_mul (c d : ℚ) (n : Nat) :
    (((List.range n).map (fun i : ℕ => (i : ℚ) * (c + d * (i : ℚ))))).sum =
      c * (n * (n - 1) / 2) + d * (n * (n - 1) * (2 * n - 1) / 6) := by
  induction n with
  | zero => simp
  | succ n ih =>
      rw [List.range_succ, List.map_append, List.sum_append, ih]
      push_cast
      simp
      ring

/-- The least-squares slope of an arithmetic progression of common
difference d is d (for at least two points). -/
theorem olsSlope_arith (n : Nat) (c d : ℚ) (hn : 2 ≤ n) :
    olsSlope ((List.range n).map (fun i : ℕ => c + d * (i : ℚ))) = d := by
  have hN : (2 : ℚ) ≤ (n : ℚ) := by exact_mod_cast hn
  have h2 : ((((List.range n).map (fun i : ℕ => (i : ℚ))).map
      (fun x => x ^ 2))).sum =
      (n : ℚ) * ((n : ℚ) - 1) * (2 * (n : ℚ) - 1) / 6 := by
    rw [List.map_map]
    have hc : ((fun x : ℚ => x ^ 2) ∘ (fun i : ℕ => (i : ℚ))) =
        fun i : ℕ => ((i : ℚ)) ^ 2 := rfl
    rw [hc, sum_range_sq_cast]
  have h4 : ((((List.range n).map (fun i : ℕ => (i : ℚ))).zip
      ((List.range n).map (fun i : ℕ => c + d * (i : ℚ)))).map
        (fun q => q.1 * q.2)).sum =
      c * ((n : ℚ) * ((n : ℚ) - 1) / 2) +
        d * ((n : ℚ) * ((n : ℚ) - 1) * (2 * (n : ℚ) - 1) / 6) := by
    rw [List.zip_map', List.map_map]
    have hc : ((fun q : ℚ × ℚ => q.1 * q.2) ∘
        (fun i : ℕ => ((i : ℚ), c + d * (i : ℚ)))) =
        fun i : ℕ => (i : ℚ) * (c + d * (i : ℚ)) := rfl
    rw [hc, sum_range_affine_mul]
  simp only [olsSlope, List.length_map, List.length_range]
  rw [h4, h2, sum_range_cast, sum_range_affine]
  have hden : (n : ℚ) * ((n : ℚ) * ((n : ℚ) - 1) * (2 * (n : ℚ) - 1) / 6) -
      ((n : ℚ) * ((n : ℚ) - 1) / 2) ^ 2 ≠ 0 := by
    have heq : (n : ℚ) * ((n : ℚ) * ((n : ℚ) - 1) * (2 * (n : ℚ) - 1) / 6) -
        ((n : ℚ) * ((n : ℚ) - 1) / 2) ^ 2 =
        (n : ℚ) ^ 2 * ((n : ℚ) - 1) * ((n : ℚ) + 1) / 12 := by ring
    rw [heq]
    have hp1 : 0 < (n : ℚ) := by linarith
    have hp2 : 0 < (n : ℚ) - 1 := by linarith
    have hp3 : 0 < (n : ℚ) + 1 := by linarith
    have hp : 0 < (n : ℚ) ^ 2 * ((n : ℚ) - 1) * ((n : ℚ) + 1) / 12 := by
      apply div_pos
      · exact mul_pos (mul_pos (pow_pos hp1 2) hp2) hp3
      · norm_num
    exact ne_of_gt hp
  rw [div_eq_iff hden]
  ring

/-- The least-squares intercept of an arithmetic progression of initial
value c is c (for at least two points). -/
theorem olsIntercept_arith (n : Nat) (c d : ℚ) (hn : 2 ≤ n) :
    olsIntercept ((List.range n).map (fun i : ℕ => c + d * (i : ℚ))) = c := by
  have hN : (2 : ℚ) ≤ (n : ℚ) := by exact_mod_cast hn
  have hn0 : (n : ℚ) ≠ 0 := by intro h; rw [h] at hN; norm_num at hN
  simp only [olsIntercept, List.length_map, List.length_range]
  rw [olsSlope_arith n c d hn, sum_range_cast, sum_range_affine]
  field_simp

/-- Detrending any arithmetic progression gives the all-zero vector. -/
theorem detrendLinear_arith (n : Nat) (c d : ℚ) :
    detrendLinear ((List.range n).map (fun i : ℕ => c + d * (i : ℚ))) =
      List.replicate n 0 := by
  match n with
  | 0 => rfl
  | 1 =>
      norm_num [detrendLinear, olsSlope, olsIntercept, List.range_succ]
  | (m + 2) =>
      have hn : 2 ≤ m + 2 := by omega
      unfold detrendLinear
      rw [olsSlope_arith _ c d hn, olsIntercept_arith _ c d hn]
      simp only [List.length_map, List.length_range, List.zip_map',
        List.map_map]
      have hmap : ((fun q : ℚ × ℚ => q.2 - (d * q.1 + c)) ∘
          (fun i : ℕ => ((i : ℚ), c + d * (i : ℚ)))) =
          fun _ : ℕ => (0 : ℚ) := by
        funext i
        simp only [Function.comp_apply]
        ring
      rw [hmap]
      have h := List.map_const' (List.range (m + 2)) (0 : ℚ)
      rw [h, List.length_range]

/-- The concrete test record: detrending [1,2,3,4,5] yields all zeros. -/
theorem detrendLinear_test5 : detrendLinear [1, 2, 3, 4, 5] = [0, 0, 0, 0, 0] := by
  have h : ([1, 2, 3, 4, 5] : List ℚ) =
      (List.range 5).map (fun i : ℕ => 1 + 1 * (i : ℚ)) := by
    norm_num [List.range_succ]
  rw [h, detrendLinear_arith]
  rfl

/-- C9: detrend("linear") fits a first-degree least-squares polynomial
against positions 0..n−1 and subtracts it, so every record whose vector is
an arithmetic progression comes out as the all-zero vector. -/
theorem detrend_linear_arith_progression {ι : Type} (s : Series ι ℚ)
    (s2 : Series ι ℚ)
    (harith : ∀ r ∈ s.records, ∃ c d : ℚ,
      r.2 = (List.range r.2.length).map (fun i : ℕ => c + d * (i : ℚ)))
    (hok : s.detrend "linear" = .ok s2) :
    ∀ r ∈ s2.records, r.2 = List.replicate r.2.length 0 := by
  unfold Series.detrend at hok
  rw [if_pos rfl] at hok
  have hs2 := Except.ok.inj hok
  subst hs2
  intro r hr
  simp only [List.mem_map] at hr
  obtain ⟨q, hq, rfl⟩ := hr
  obtain ⟨c, d, hcd⟩ := harith q hq
  show detrendLinear q.2 = List.replicate (detrendLinear q.2).length 0
  rw [hcd, detrendLinear_arith]
  simp

/-- Witness for C9: detrending the arithmetic progression [1,2,3,4,5]
yields the zero vector. -/
theorem detrend_linear_arith_progression_witness :
    ([(0 : ℚ), 0, 0, 0, 0] : List ℚ) =
      List.replicate ([(0 : ℚ), 0, 0, 0, 0] : List ℚ).length 0 :=
  detrend_linear_arith_progression testSeries5
    ⟨[0, 1, 2, 3, 4], [([0], [0, 0, 0, 0, 0])]⟩
    (by
      intro r hr
      simp only [testSeries5, List.mem_singleton] at hr
      subst hr
      exact ⟨1, 1, by norm_num [List.range_succ]⟩)
    (by norm_num [Series.detrend, testSeries5, detrendLinear_test5])
    ([0], [0, 0, 0, 0, 0]) (by simp)

/-- Subtracting a constant from every element shifts the sum by length
times the constant. -/
theorem sum_map_sub (xs : List ℚ) (c : ℚ) :
    (xs.map (fun x => x - c)).sum = xs.sum - xs.length * c := by
  induction xs with
  | nil => simp
  | cons x xs ih =>
      simp [ih]
      ring

/-- Subtracting a constant from every element shifts the mean by the
constant. -/
theorem listMean_map_sub (xs : List ℚ) (c : ℚ) (hne : xs ≠ []) :
    listMean (xs.map (fun x => x - c)) = listMean xs - c := by
  have hn : (xs.length : ℚ) ≠ 0 := by
    have h0 : xs.length ≠ 0 := by
      intro h
      exact hne (List.eq_nil_of_length_eq_zero h)
    exact_mod_cast h0
  unfold listMean
  rw [List.length_map, sum_map_sub]
  field_simp

/-- Column j of a matrix whose every row was rebuilt by subtracting a
per-position value is the original column shifted by that value. -/
theorem colVals_map_center (nc j : Nat) (g : ℕ → ℚ) (hj : j < nc) :
    ∀ (rows : List (Key × List ℚ)), (∀ r ∈ rows, r.2.length = nc) →
      colVals (rows.map (fun r =>
        (r.1, (List.range r.2.length).map (fun i => r.2.getD i 0 - g i)))) j
      = (colVals rows j).map (fun x => x - g j) := by
  intro rows
  induction rows with
  | nil => intro _; rfl
  | cons r rest ih =>
      intro hwf
      have hr : r.2.length = nc := hwf r (by simp)
      have hrest : ∀ q ∈ rest, q.2.length = nc := by
        intro q hq
        exact hwf q (by simp [hq])
      have hjr : j < r.2.length := by rw [hr]; exact hj
      simp only [colVals, List.map_cons, List.filterMap_cons]
      rw [List.getElem?_map, List.getElem?_range hjr]
      have hv : r.2[j]? = some (r.2.getD j 0) := by
        rw [List.getElem?_eq_getElem hjr]
        rw [List.getD_eq_getElem?_getD, List.getElem?_eq_getElem hjr]
        rfl
      rw [hv]
      simp only [Option.map_some]
      have hrec := ih hrest
      simp only [colVals] at hrec
      rw [hrec]
      rfl

/-- After the pipeline centering, every column of a well-formed nonempty
matrix has mean zero. -/
theorem colMean_center_zero (m : RowMatrix) (nc j : Nat)
    (hne : m.rows ≠ []) (hwf : ∀ r ∈ m.rows, r.2.length = nc)
    (hj : j < nc) : colMean (m.center 0) j = 0 := by
  have hcv : colVals (m.center 0).rows j =
      (colVals m.rows j).map (fun x => x - colMean m j) := by
    unfold RowMatrix.center
    rw [if_pos rfl]
    simpa using colVals_map_center nc j (colMean m) hj m.rows hwf
  have hcne : colVals m.rows j ≠ [] := by
    match m, hne with
    | ⟨r :: rest⟩, _ =>
      have hr : r.2.length = nc := hwf r (by simp)
      have hjr : j < r.2.length := by rw [hr]; exact hj
      simp only [colVals, List.filterMap_cons]
      rw [List.getElem?_eq_getElem hjr]
      simp
  unfold colMean
  rw [hcv, listMean_map_sub _ _ hcne]
  unfold colMean
  ring

/-- C1: PCA.fit centers the input by feature before the SVD — the matrix
handed to the SVD is the column-centered input, and after that centering
every column of a well-formed nonempty matrix has mean zero. -/
theorem pca_fit_centers_by_feature (p : PCAModel) (f : SVDMethod)
    (input : List (Key × List ℚ) ⊕ RowMatrix) (nc j : Nat)
    (hne : (inputMatrix input).rows ≠ [])
    (hwf : ∀ r ∈ (inputMatrix input).rows, r.2.length = nc)
    (hj : j < nc) :
    (PCA.fit p f input).2 = (inputMatrix input).center 0 ∧
    (PCA.fit p f input).1.scores =
      (f p.k p.svdmethod ((inputMatrix input).center 0)).u ∧
    colMean ((inputMatrix input).center 0) j = 0 :=
  ⟨rfl, rfl, colMean_center_zero (inputMatrix input) nc j hne hwf hj⟩

/-- Witness for C1: on a concrete two-by-two matrix, fit hands the SVD the
column-centered matrix, whose first column has mean zero. -/
theorem pca_fit_centers_by_feature_witness :
    (PCA.fit ⟨2, "direct"⟩ (fun _ _ _ => ⟨[], [], []⟩) (.inr demoMatrix)).2 =
      (inputMatrix (.inr demoMatrix)).center 0 ∧
    (PCA.fit ⟨2, "direct"⟩ (fun _ _ _ => ⟨[], [], []⟩)
        (.inr demoMatrix)).1.scores =
      ((fun _ _ _ => (⟨[], [], []⟩ : SVDResult)) 2 "direct"
        ((inputMatrix (.inr demoMatrix)).center 0)).u ∧
    colMean ((inputMatrix (.inr demoMatrix)).center 0) 0 = 0 :=
  pca_fit_centers_by_feature ⟨2, "direct"⟩ (fun _ _ _ => ⟨[], [], []⟩)
    (.inr demoMatrix) 2 0
    (by simp [inputMatrix, demoMatrix])
    (by
      intro r hr
      fin_cases hr <;> rfl)
    (by norm_num)

/-- Centering does not change the number of rows. -/
theorem RowMatrix.nrows_center (m : RowMatrix) (axis : Nat) :
    (m.center axis).nrows = m.nrows := by
  unfold RowMatrix.center RowMatrix.nrows
  split <;> simp

/-- Column centering does not change the number of columns. -/
theorem RowMatrix.ncols_center0 (m : RowMatrix) :
    (m.center 0).ncols = m.ncols := by
  unfold RowMatrix.center RowMatrix.ncols
  rw [if_pos rfl]
  cases m.rows with
  | nil => rfl
  | cons r rest => simp

/-- C4: fit stores exactly the SVD's artifacts — scores = u, latent = s,
comps = v, from an SVD run with the instance's k and method on the centered
input — and under the SVD shape contract they have the promised shapes: one
k-length score vector per original record, k latent values, and k
components of length ncols. -/
theorem pca_fit_stores_svd_artifacts (p : PCAModel) (f : SVDMethod)
    (input : List (Key × List ℚ) ⊕ RowMatrix) (hf : SVDSpecOK f) :
    (PCA.fit p f input).1.scores =
      (f p.k p.svdmethod ((inputMatrix input).center 0)).u ∧
    (PCA.fit p f input).1.latent =
      (f p.k p.svdmethod ((inputMatrix input).center 0)).s ∧
    (PCA.fit p f input).1.comps =
      (f p.k p.svdmethod ((inputMatrix input).center 0)).v ∧
    (PCA.fit p f input).1.scores.length = (inputMatrix input).nrows ∧
    (∀ r ∈ (PCA.fit p f input).1.scores, r.2.length = p.k) ∧
    (PCA.fit p f input).1.latent.length = p.k ∧
    (PCA.fit p f input).1.comps.length = p.k ∧
    (∀ c ∈ (PCA.fit p f input).1.comps,
      c.length = (inputMatrix input).ncols) := by
  obtain ⟨h1, h2, h3, h4, h5⟩ :=
    hf p.k p.svdmethod ((inputMatrix input).center 0)
  refine ⟨rfl, rfl, rfl, ?_, h2, h3, h4, ?_⟩
  · show (f p.k p.svdmethod ((inputMatrix input).center 0)).u.length = _
    rw [h1, RowMatrix.nrows_center]
  · intro c hc
    rw [h5 c hc, RowMatrix.ncols_center0]

/-- A trivial SVD implementation meeting the shape contract, used to
witness the contract hypothesis. -/
def shapeSvd : SVDMethod := fun k _ m =>
  ⟨m.rows.map (fun r => (r.1, List.replicate k 0)), List.replicate k 0,
   List.replicate k (List.replicate m.ncols 0)⟩

/-- The trivial SVD meets the shape contract. -/
theorem shapeSvd_ok : SVDSpecOK shapeSvd := by
  intro k method m
  refine ⟨by simp [shapeSvd, RowMatrix.nrows], ?_, by simp [shapeSvd],
    by simp [shapeSvd], ?_⟩
  · intro r hr
    simp only [shapeSvd, List.mem_map] at hr
    obtain ⟨q, hq, rfl⟩ := hr
    simp
  · intro c hc
    simp only [shapeSvd] at hc
    rw [List.eq_of_mem_replicate hc]
    simp

/-- Witness for C4: with the trivial shape-correct SVD on a concrete
matrix, the stored artifacts have the promised shapes. -/
theorem pca_fit_stores_svd_artifacts_witness :
    (PCA.fit ⟨2, "em"⟩ shapeSvd (.inr demoMatrix)).1.scores.length =
      (inputMatrix (.inr demoMatrix)).nrows ∧
    (PCA.fit ⟨2, "em"⟩ shapeSvd (.inr demoMatrix)).1.latent.length = 2 ∧
    (PCA.fit ⟨2, "em"⟩ shapeSvd (.inr demoMatrix)).1.comps.length = 2 :=
  ⟨(pca_fit_stores_svd_artifacts ⟨2, "em"⟩ shapeSvd (.inr demoMatrix)
      shapeSvd_ok).2.2.2.1,
   (pca_fit_stores_svd_artifacts ⟨2, "em"⟩ shapeSvd (.inr demoMatrix)
      shapeSvd_ok).2.2.2.2.2.1,
   (pca_fit_stores_svd_artifacts ⟨2, "em"⟩ shapeSvd (.inr demoMatrix)
      shapeSvd_ok).2.2.2.2.2.2.1⟩

/-- C10: when the caller passes a RowMatrix, fit operates on that matrix
in place — the post-state of the matrix object is its column-centered
value (modelled by explicit state passing), the same centered object is
what the SVD receives, and on a concrete matrix the centered value differs
from the original, so the caller's matrix no longer holds the original
data. -/
theorem pca_fit_mutates_caller_matrix :
    (∀ (p : PCAModel) (f : SVDMethod) (m : RowMatrix),
      (PCA.fit p f (.inr m)).2 = m.center 0 ∧
      (PCA.fit p f (.inr m)).1.scores =
        (f p.k p.svdmethod (m.center 0)).u) ∧
    demoMatrix.center 0 ≠ demoMatrix := by
  constructor
  · intro p f m
    exact ⟨rfl, rfl⟩
  · have h0 : colMean demoMatrix 0 = 2 := by
      have hcv : colVals demoMatrix.rows 0 = [1, 3] := rfl
      rw [colMean, hcv]
      norm_num [listMean]
    have h1v : colMean demoMatrix 1 = 3 := by
      have hcv : colVals demoMatrix.rows 1 = [2, 4] := rfl
      rw [colMean, hcv]
      norm_num [listMean]
    have hc : (demoMatrix.center 0).rows = [([0], [-1, -1]), ([1], [1, 1])] := by
      unfold RowMatrix.center
      rw [if_pos rfl]
      rw [show demoMatrix.rows = [([0], [1, 2]), ([1], [3, 4])] from rfl]
      norm_num [List.range_succ, List.getD_cons_zero, List.getD_cons_succ,
        h0, h1v]
    intro h
    rw [h] at hc
    rw [show demoMatrix.rows = [([0], [1, 2]), ([1], [3, 4])] from rfl] at hc
    norm_num at hc

end Thunder
